import Mathlib

/-!
Verification of the DemoShip pipeline specification against a shallow
embedding of the TypeScript source.

Each definition in this file is translated from a function of the
repository (file and function named in its doc comment).  JavaScript
numbers standing for non-negative counters are modelled as `Nat`,
millisecond timestamps as `Nat`, fallible routes as `Except`, database
rows as structures, and the in-memory rate-limit `Map` as a function
`String → Option RateRecord`.  `Date.now()` and network collaborators
are passed in explicitly as parameters.
-/

/- ### Rate limiter (src/lib/api-auth.ts) -/

/-- Value type of `rateLimitStore` (src/lib/api-auth.ts line 87). -/
structure RateRecord where
  count : Nat
  resetAt : Nat
deriving DecidableEq

/-- Return type of `checkRateLimit` (src/lib/api-auth.ts line 93). -/
structure RateResult where
  allowed : Bool
  remaining : Nat
  resetAt : Nat
deriving DecidableEq

/-- The in-memory `rateLimitStore : Map<string, {count, resetAt}>` modelled as a
function from key to optional record. -/
def RateStore : Type := String → Option RateRecord

/-- Map.set on the modelled store. -/
def RateStore.set (store : RateStore) (key : String) (r : RateRecord) : RateStore :=
  fun k => if k = key then some r else store k

/-- Embedding of `checkRateLimit` (src/lib/api-auth.ts lines 89-119).
`Date.now()` is the explicit `now` parameter; the probabilistic sweep of
expired entries (lines 98-104) is omitted because it runs before any write of
this call, only deletes records with `resetAt < now`, and such records are
already treated as absent by the read on line 106, so it changes neither the
returned value nor the behaviour of any later call. -/
def checkRateLimit (keyId : String) (limit windowMs now : Nat)
    (store : RateStore) : RateResult × RateStore :=
  match store keyId with
  | none =>
      let resetAt := now + windowMs
      (⟨true, limit - 1, resetAt⟩, store.set keyId ⟨1, resetAt⟩)
  | some record =>
      if record.resetAt < now then
        let resetAt := now + windowMs
        (⟨true, limit - 1, resetAt⟩, store.set keyId ⟨1, resetAt⟩)
      else if limit ≤ record.count then
        (⟨false, 0, record.resetAt⟩, store)
      else
        (⟨true, limit - (record.count + 1), record.resetAt⟩,
         store.set keyId ⟨record.count + 1, record.resetAt⟩)

/-- The store after the first `n` calls of a sequence of `checkRateLimit` calls
on one key, the `i`-th call happening at time `ts i`. -/
def rateStateAfter (keyId : String) (limit windowMs : Nat) (ts : Nat → Nat)
    (store : RateStore) : Nat → RateStore
  | 0 => store
  | n + 1 =>
      (checkRateLimit keyId limit windowMs (ts n)
        (rateStateAfter keyId limit windowMs ts store n)).2

/-- The result returned by call number `n` (0-based) of the sequence. -/
def rateCallResult (keyId : String) (limit windowMs : Nat) (ts : Nat → Nat)
    (store : RateStore) (n : Nat) : RateResult :=
  (checkRateLimit keyId limit windowMs (ts n)
    (rateStateAfter keyId limit windowMs ts store n)).1

/- ### Patch truncation (src/lib/github.ts) -/

/-- Helper for `jsSplitNewline`: scans characters, accumulating the current
line in reverse. -/
def splitLinesAux : List Char → List Char → List String
  | [], acc => [String.mk acc.reverse]
  | c :: rest, acc =>
      if c = '\n' then String.mk acc.reverse :: splitLinesAux rest []
      else splitLinesAux rest (c :: acc)

/-- JavaScript `string.split("\n")` modelled as a character-level split: the
list of newline-separated segments, including empty ones ("" splits to [""],
"a\n" splits to ["a", ""]). -/
def jsSplitNewline (s : String) : List String := splitLinesAux s.data []

/-- Embedding of `truncatePatch` (src/lib/github.ts lines 140-148):
`patch.split("\n")` is `jsSplitNewline`, `Array.prototype.join("\n")`
is `String.intercalate "\n"`. -/
def truncatePatch (patch : String) (maxLines : Nat) : String :=
  if (jsSplitNewline patch).length ≤ maxLines then patch
  else
    String.intercalate "\n" ((jsSplitNewline patch).take maxLines) ++
      ("\n... (" ++ toString ((jsSplitNewline patch).length - maxLines) ++
        " more lines truncated)")

/-- Embedding of `truncatePatchForMultiPR` (src/lib/github.ts lines 251-259);
its body is identical to `truncatePatch`. -/
def truncatePatchForMultiPR (patch : String) (maxLines : Nat) : String :=
  if (jsSplitNewline patch).length ≤ maxLines then patch
  else
    String.intercalate "\n" ((jsSplitNewline patch).take maxLines) ++
      ("\n... (" ++ toString ((jsSplitNewline patch).length - maxLines) ++
        " more lines truncated)")

/-- A 600-line patch used to instantiate the truncation theorem: 599
newlines separating 600 copies of the line "x". -/
def sixHundredLinePatch : String :=
  String.intercalate "\n" (List.replicate 600 "x")

/- ### GitHub data model (src/lib/github.ts, src/lib/types.ts) -/

/-- File status union of `PRFile.status` (src/lib/github.ts line 15). -/
inductive FileStatus where
  | added
  | removed
  | modified
  | renamed
deriving DecidableEq

/-- String rendering of a file status, as it appears in formatted output. -/
def FileStatus.toStr : FileStatus → String
  | .added => "added"
  | .removed => "removed"
  | .modified => "modified"
  | .renamed => "renamed"

/-- Embedding of `PRFile` (src/lib/github.ts lines 13-19). -/
structure PRFile where
  filename : String
  status : FileStatus
  additions : Nat
  deletions : Nat
  patch : Option String
deriving DecidableEq

/-- Embedding of `PRCommit` (src/lib/github.ts lines 21-25). -/
structure PRCommit where
  sha : String
  message : String
  author : String
deriving DecidableEq

/-- Embedding of `PRData` (src/lib/github.ts lines 1-11). -/
structure PRData where
  title : String
  description : String
  author : String
  authorAvatar : String
  filesChanged : Nat
  additions : Nat
  deletions : Nat
  files : List PRFile
  commits : List PRCommit
deriving DecidableEq

/-- Embedding of `PRDataWithNumber` (src/lib/github.ts lines 179-181). -/
structure PRDataWithNumber extends PRData where
  prNumber : Nat
deriving DecidableEq

/- ### Change-request URL parsing (src/lib/github.ts, parsePRUrl) -/

/-- Parsed reference returned by `parsePRUrl` (src/lib/github.ts lines 27-31). -/
structure PRRef where
  owner : String
  repo : String
  number : Nat
deriving DecidableEq

/-- The literal "github.com/" of the `parsePRUrl` regex. -/
def githubLit : List Char := ['g', 'i', 't', 'h', 'u', 'b', '.', 'c', 'o', 'm', '/']

/-- The literal "/pull/" of the `parsePRUrl` regex. -/
def pullLit : List Char := ['/', 'p', 'u', 'l', 'l', '/']

/-- Decimal value of a digit run, modelling `parseInt(match[3], 10)`. -/
def digitsToNat (d : List Char) : Nat :=
  d.foldl (fun n c => n * 10 + (c.toNat - '0'.toNat)) 0

/-- Match of `([^\/]+)\/([^\/]+)\/pull\/(\d+)` at the start of `l` (the text
following "github.com/").  The backtracking here is deterministic: `[^\/]+`
cannot cross a '/' so it must stop at the next one, and `\d+` greedily takes
the maximal digit run (nothing follows it in the pattern). -/
def parseAfterGithub (l : List Char) : Option PRRef :=
  if (l.takeWhile (· != '/')).isEmpty then none
  else
    match l.dropWhile (· != '/') with
    | [] => none
    | c :: r2 =>
      if c = '/' then
        if (r2.takeWhile (· != '/')).isEmpty then none
        else if pullLit.isPrefixOf (r2.dropWhile (· != '/')) then
          if (((r2.dropWhile (· != '/')).drop pullLit.length).takeWhile
              Char.isDigit).isEmpty then none
          else some ⟨String.mk (l.takeWhile (· != '/')),
            String.mk (r2.takeWhile (· != '/')),
            digitsToNat (((r2.dropWhile (· != '/')).drop pullLit.length).takeWhile
              Char.isDigit)⟩
        else none
      else none

/-- Left-to-right scan for the first position where the pattern matches,
modelling the unanchored `String.prototype.match`.  The optional scheme group
`(?:https?:\/\/)?` is not represented because it does not constrain the
captures nor whether a match exists: a match (with or without scheme) exists
at some position exactly when "github.com/" occurs followed by the
owner/repo/pull/digits shape, and the captures come from that occurrence. -/
def findPRRef : List Char → Option PRRef
  | [] => none
  | c :: rest =>
      if githubLit.isPrefixOf (c :: rest) then
        match parseAfterGithub ((c :: rest).drop githubLit.length) with
        | some r => some r
        | none => findPRRef rest
      else findPRRef rest

/-- Embedding of `parsePRUrl` (src/lib/github.ts lines 27-46): the unanchored
regex match over the whole input string. -/
def parsePRUrl (url : String) : Option PRRef := findPRRef url.data

/-- Constraints the regex places on the capture pieces: non-empty slash-free
owner and repo, and a non-empty digit run. -/
def PRRefPieces (o r d : List Char) : Prop :=
  o ≠ [] ∧ '/' ∉ o ∧ r ≠ [] ∧ '/' ∉ r ∧ d ≠ [] ∧ ∀ c ∈ d, c.isDigit = true

/-- The character list contains "github.com/{owner}/{repo}/pull/{digits}" as
a substring (for some decomposition with valid pieces). -/
def hasPRRef (l : List Char) : Prop :=
  ∃ pre o r d post,
    l = pre ++ githubLit ++ o ++ ['/'] ++ r ++ pullLit ++ d ++ post
    ∧ PRRefPieces o r d

/- ### Multi-item prompt formatting (src/lib/github.ts, formatMultiplePRsForAI) -/

/-- One file block of the per-item "Key Files Changed" list
(src/lib/github.ts lines 230-238): heading, stat line, and the fenced diff
with the 200-line multi-item truncation when a patch is present. -/
def fileEntry (file : PRFile) : String :=
  "\n#### " ++ file.filename ++ " (" ++ file.status.toStr ++ ")\n" ++
  "+" ++ toString file.additions ++ " -" ++ toString file.deletions ++ "\n" ++
  (match file.patch with
   | some p => "```diff\n" ++ truncatePatchForMultiPR p 200 ++ "\n```\n"
   | none => "")

/-- The per-item commit list (src/lib/github.ts lines 215-225): the indexed
loop over `j < min(5, commits.length)` is the `take (min 5 length)` of the
commit list, followed by the "and N more commits" marker when commits were
omitted. -/
def commitsSection (prData : PRDataWithNumber) : String :=
  "### Commits\n" ++
  String.join ((prData.commits.take (min 5 prData.commits.length)).map
    (fun commit => "- " ++ commit.sha ++ ": " ++ commit.message ++ "\n")) ++
  (if min 5 prData.commits.length < prData.commits.length then
    "- ... and " ++ toString (prData.commits.length - min 5 prData.commits.length) ++
      " more commits\n"
   else "")

/-- The per-item file list (src/lib/github.ts lines 227-241):
`files.slice(0, maxFilesPerPR)` is `take maxFilesPerPR`, followed by the
"and N more files" marker when files were omitted. -/
def filesSection (prData : PRDataWithNumber) (maxFilesPerPR : Nat) : String :=
  "### Key Files Changed\n" ++
  String.join ((prData.files.take maxFilesPerPR).map fileEntry) ++
  (if maxFilesPerPR < prData.files.length then
    "\n*... and " ++ toString (prData.files.length - maxFilesPerPR) ++ " more files*\n"
   else "")

/-- One per-item section of the combined document (the body of the loop in
src/lib/github.ts lines 203-246, separator excluded): header, stats, optional
description (JavaScript truthiness of the description string is
`¬ isEmpty`), commits, files. -/
def prSection (prData : PRDataWithNumber) (maxFilesPerPR : Nat) : String :=
  "## PR #" ++ toString prData.prNumber ++ ": " ++ prData.title ++ "\n\n" ++
  "**Author:** " ++ prData.author ++ "\n" ++
  "**Files Changed:** " ++ toString prData.filesChanged ++ "\n" ++
  "**Additions:** +" ++ toString prData.additions ++ "\n" ++
  "**Deletions:** -" ++ toString prData.deletions ++ "\n\n" ++
  (if prData.description.isEmpty then ""
   else "### Description\n" ++ prData.description ++ "\n\n") ++
  commitsSection prData ++ "\n" ++
  filesSection prData maxFilesPerPR

/-- The aggregate header of the combined document (src/lib/github.ts lines
188-197). -/
def multiPRHeader (prDataList : List PRDataWithNumber) (owner repo : String) : String :=
  "# Combined Pull Requests for " ++ owner ++ "/" ++ repo ++ "\n\n" ++
  "**Total PRs:** " ++ toString prDataList.length ++ "\n" ++
  "**Total Files Changed:** " ++
    toString (prDataList.foldl (fun sum pr => sum + pr.filesChanged) 0) ++ "\n" ++
  "**Total Additions:** +" ++
    toString (prDataList.foldl (fun sum pr => sum + pr.additions) 0) ++ "\n" ++
  "**Total Deletions:** -" ++
    toString (prDataList.foldl (fun sum pr => sum + pr.deletions) 0) ++ "\n\n" ++
  "---\n\n"

/-- Embedding of `formatMultiplePRsForAI` (src/lib/github.ts lines 183-249).
`Math.max(3, Math.floor(15 / prDataList.length))` is `max 3 (15 / length)`
(Nat division floors; the routes guarantee a non-empty list, so the JS
division never hits the zero case).  Emitting the separator after every
section but the last (lines 243-245) is `String.intercalate`. -/
def formatMultiplePRsForAI (prDataList : List PRDataWithNumber)
    (owner repo : String) : String :=
  multiPRHeader prDataList owner repo ++
  String.intercalate "\n---\n\n"
    (prDataList.map (fun prData => prSection prData (max 3 (15 / prDataList.length))))

/-- Sample commit for the formatter witness. -/
def sampleCommit (n : Nat) : PRCommit :=
  { sha := "sha" ++ toString n, message := "msg" ++ toString n, author := "a" }

/-- First sample item for the formatter witness. -/
def samplePRW1 : PRDataWithNumber :=
  { title := "One", description := "", author := "alice", authorAvatar := "",
    filesChanged := 1, additions := 2, deletions := 3, files := [],
    commits := [sampleCommit 1, sampleCommit 2], prNumber := 11 }

/-- Second sample item for the formatter witness. -/
def samplePRW2 : PRDataWithNumber :=
  { title := "Two", description := "d", author := "bob", authorAvatar := "",
    filesChanged := 4, additions := 5, deletions := 6, files := [],
    commits := [], prNumber := 12 }

/- ### Screenshot extraction (src/lib/screenshots.ts) -/

/-- Case-sensitive substring test, modelling `String.prototype.includes`. -/
def containsSub : List Char → List Char → Bool
  | [], sub => sub.isEmpty
  | c :: rest, sub => sub.isPrefixOf (c :: rest) || containsSub rest sub

/-- Remainder after the first occurrence of `pat` (none when `pat` does not
occur); choosing the first occurrence maximises the remainder, so chaining
these models a regex `A.*B` test. -/
def dropAfterFirst : List Char → List Char → Option (List Char)
  | [], pat => if pat.isEmpty then some [] else none
  | c :: rest, pat =>
      if pat.isPrefixOf (c :: rest) then some ((c :: rest).drop pat.length)
      else dropAfterFirst rest pat

/-- Sequential-containment test: each pattern occurs, in order, each after
the end of the previous one — the shape of the `A.*B.*C` exclusion regexes. -/
def containsSeq : List Char → List String → Bool
  | _, [] => true
  | l, pat :: pats =>
      match dropAfterFirst l pat.data with
      | some rest => containsSeq rest pats
      | none => false

/-- Lower-cased character list of a string, for the `/i`-flagged regex
tests. -/
def lowerData (s : String) : List Char := s.data.map Char.toLower

/-- JavaScript whitespace for `String.prototype.trim` (the characters that
occur in practice in comment bodies). -/
def isJsSpace (c : Char) : Bool :=
  c = ' ' || c = '\t' || c = '\n' || c = '\r' || c = '\x0c'

/-- `String.prototype.trim`: strip whitespace from both ends. -/
def jsTrim (s : String) : String :=
  String.mk (((s.data.dropWhile isJsSpace).reverse.dropWhile isJsSpace).reverse)

/-- Embedding of `PRComment` as used by src/lib/screenshots.ts (`comment.id`,
`comment.user.login`, `comment.body`; the interface itself lives in the
github module). -/
structure CommentUser where
  login : String
deriving DecidableEq

/-- A discussion comment. -/
structure PRComment where
  id : Nat
  user : CommentUser
  body : String
deriving DecidableEq

/-- An extracted image candidate: URL plus optional alt text. -/
structure ImageRef where
  url : String
  alt : Option String
deriving DecidableEq

/-- Embedding of the screenshot record built by
`parseScreenshotsFromComments` (src/lib/screenshots.ts lines 112-119);
`source` is the runtime string tag (`ScreenshotSource` in src/lib/types.ts
line 103 lists only a subset of the tags the module actually produces). -/
structure ScreenshotRec where
  url : String
  alt_text : Option String
  source : String
  comment_id : Nat
  comment_author : Option String
  display_order : Nat
deriving DecidableEq

/-- Match of the markdown image regex `!\[([^\]]*)\]\(([^)]+)\)`
(src/lib/screenshots.ts line 138) at the start of `l`: alt text (empty maps
to null through `match[1] || null`), trimmed URL, and the remainder after
the closing parenthesis. -/
def tryMdImage (l : List Char) : Option (Option String × String × List Char) :=
  match l with
  | '!' :: '[' :: r1 =>
    (match r1.drop (r1.takeWhile (· != ']')).length with
     | ']' :: '(' :: r2 =>
       if (r2.takeWhile (· != ')')).isEmpty then none
       else
         match r2.drop (r2.takeWhile (· != ')')).length with
         | ')' :: r3 =>
             some (if (r1.takeWhile (· != ']')).isEmpty then none
                   else some (String.mk (r1.takeWhile (· != ']'))),
               jsTrim (String.mk (r2.takeWhile (· != ')'))), r3)
         | _ => none
     | _ => none)
  | _ => none

/-- Global scan with the markdown image regex: try each position, resume
after the end of a match (the `g`-flag `exec` loop of lines 141-145).  The
fuel argument (initialised above the input length) only justifies
termination. -/
def mdScan : Nat → List Char → List ImageRef
  | 0, _ => []
  | _, [] => []
  | fuel + 1, c :: rest =>
    match tryMdImage (c :: rest) with
    | some (alt, url, remaining) => { url := url, alt := alt } :: mdScan fuel remaining
    | none => mdScan fuel rest

/-- Either quote character accepted by the `["']` classes. -/
def isQuote (c : Char) : Bool := c = '"' || c = Char.ofNat 39

/-- Match `["']([^"']*)["']` (or the non-empty `+` variant) at the start of
`l`: the captured text and the remainder after the closing quote. -/
def parseQuoted (allowEmpty : Bool) (l : List Char) : Option (String × List Char) :=
  match l with
  | q :: rest =>
    if isQuote q then
      if !allowEmpty && (rest.takeWhile (fun c => !(isQuote c))).isEmpty then none
      else
        match rest.drop (rest.takeWhile (fun c => !(isQuote c))).length with
        | q2 :: rest2 =>
            if isQuote q2 then
              some (String.mk (rest.takeWhile (fun c => !(isQuote c))), rest2)
            else none
        | [] => none
    else none
  | [] => none

/-- Case-insensitive match of a lowercase pattern at the start of `l`. -/
def matchesCI : List Char → List Char → Bool
  | [], _ => true
  | _ :: _, [] => false
  | p :: ps, c :: cs => (c.toLower = p) && matchesCI ps cs

/-- Quoted `src` URL when `src=["']...["']` (case-insensitive key) matches at
offset `p` of the tag body. -/
def srcUrlAt (inTag : List Char) (p : Nat) : Option String :=
  if matchesCI "src=".data (inTag.drop p) then
    (parseQuoted false (inTag.drop (p + 4))).map (fun pr => pr.1)
  else none

/-- The rightmost valid `src=["']...["']` occurrence at offset at least
`minOffset` in a tag body: JavaScript's greedy `[^>]+`/`[^>]*` before `src=`
backtracks from the right, so the match uses the last such occurrence. -/
def lastValidSrc (inTag : List Char) (minOffset : Nat) : Option String :=
  ((List.range inTag.length).filterMap (fun p =>
    if minOffset ≤ p then srcUrlAt inTag p else none)).getLast?

/-- Quoted `alt` text (possibly empty) when `alt=["']...["']` matches at
offset `p`; returns the capture and the remainder after its closing quote. -/
def altAt (inTag : List Char) (p : Nat) : Option (String × List Char) :=
  if matchesCI "alt=".data (inTag.drop p) then parseQuoted true (inTag.drop (p + 4))
  else none

/-- Captures of the alt-before-src img regex (src/lib/screenshots.ts line
160) inside one tag body: the rightmost `alt=` (greedy `[^>]+` backtracks
from the right) that still has a valid `src=` somewhere after it, paired with
the rightmost such `src` URL. -/
def htmlAltFirstCapture (inTag : List Char) : Option (String × String) :=
  ((List.range inTag.length).filterMap (fun p =>
    if 1 ≤ p then
      match altAt inTag p with
      | some (alt, rest2) =>
        (match lastValidSrc rest2 0 with
         | some url => some (alt, url)
         | none => none)
      | none => none
    else none)).getLast?

/-- Global scan with the src-first img regex
`<img[^>]+src=["']([^"']+)["'][^>]*(?:alt=["']([^"']*)["'])?[^>]*>`
(src/lib/screenshots.ts line 148).  The alt group never captures: the greedy
`[^>]*` before it consumes the rest of the tag body and the overall match
already succeeds with the optional group empty, so `match[2]` is always
undefined and the alt is always null.  A match ends at the first '>' after
"<img" and scanning resumes there; a failed position advances one
character. -/
def htmlSrcFirstScan : Nat → List Char → List ImageRef
  | 0, _ => []
  | _, [] => []
  | fuel + 1, c :: rest =>
    if matchesCI "<img".data (c :: rest) then
      match ((c :: rest).drop 4).drop (((c :: rest).drop 4).takeWhile (· != '>')).length with
      | '>' :: after =>
        (match lastValidSrc (((c :: rest).drop 4).takeWhile (· != '>')) 1 with
         | some url => { url := jsTrim url, alt := none } :: htmlSrcFirstScan fuel after
         | none => htmlSrcFirstScan fuel rest)
      | _ => htmlSrcFirstScan fuel rest
    else htmlSrcFirstScan fuel rest

/-- Global scan with the alt-first img regex
`<img[^>]+alt=["']([^"']*)["'][^>]*src=["']([^"']+)["'][^>]*>`
(src/lib/screenshots.ts line 160): alt capture (empty maps to null), trimmed
src URL. -/
def htmlAltFirstScan : Nat → List Char → List ImageRef
  | 0, _ => []
  | _, [] => []
  | fuel + 1, c :: rest =>
    if matchesCI "<img".data (c :: rest) then
      match ((c :: rest).drop 4).drop (((c :: rest).drop 4).takeWhile (· != '>')).length with
      | '>' :: after =>
        (match htmlAltFirstCapture (((c :: rest).drop 4).takeWhile (· != '>')) with
         | some (alt, url) =>
             { url := jsTrim url,
               alt := if alt.isEmpty then none else some alt } ::
               htmlAltFirstScan fuel after
         | none => htmlAltFirstScan fuel rest)
      | _ => htmlAltFirstScan fuel rest
    else htmlAltFirstScan fuel rest

/-- Append images that are not already present by URL (the
`!images.some(img => img.url === url)` checks of lines 154 and 165). -/
def dedupAppend (acc : List ImageRef) (newImgs : List ImageRef) : List ImageRef :=
  newImgs.foldl (fun imgs i =>
    if imgs.any (fun j => j.url == i.url) then imgs else imgs ++ [i]) acc

/-- Embedding of `extractImagesFromMarkdown` (src/lib/screenshots.ts lines
134-171): the markdown pass collects everything, the two HTML passes append
URL-deduplicated candidates. -/
def extractImagesFromMarkdown (content : String) : List ImageRef :=
  dedupAppend
    (dedupAppend (mdScan (content.data.length + 1) content.data)
      (htmlSrcFirstScan (content.data.length + 1) content.data))
    (htmlAltFirstScan (content.data.length + 1) content.data)

/-- Embedding of `MIN_DIMENSION_HINTS` (src/lib/screenshots.ts line 92). -/
def minDimensionHints : List String := ["64x", "32x", "16x", "24x", "48x"]

/-- The image extensions of the validity filter (src/lib/screenshots.ts line
222). -/
def imageExtensions : List String := [".png", ".jpg", ".jpeg", ".gif", ".webp", ".avif"]

/-- Does the list start with '?'. -/
def startsWithQn : List Char → Bool
  | '?' :: _ => true
  | _ => false

/-- One-position match of `\.(png|jpg|jpeg|gif|webp|avif)(\?.*)?$`: an
extension followed by end of input or a query string. -/
def extAtPos (l : List Char) : Bool :=
  imageExtensions.any (fun e =>
    e.data.isPrefixOf l &&
      ((l.drop e.data.length).isEmpty || startsWithQn (l.drop e.data.length)))

/-- Anywhere-match of the extension regex on a (lower-cased) URL. -/
def extTest : List Char → Bool
  | [] => false
  | c :: rest => extAtPos (c :: rest) || extTest rest

/-- Tail match of `icon[-_]?\d*\.(png|svg|jpg|gif)` after the literal
"icon": optional dash or underscore, a digit run, a dot and one of the four
extensions (all deterministic, since `[-_]?` followed by digits-then-dot
cannot backtrack usefully). -/
def iconAt (l : List Char) : Bool :=
  match (match l with
         | c :: r => if c = '-' ∨ c = '_' then r else l
         | [] => l).dropWhile Char.isDigit with
  | '.' :: r => ["png", "svg", "jpg", "gif"].any (fun e => e.data.isPrefixOf r)
  | _ => false

/-- Anywhere-match of the icon-filename exclusion regex. -/
def iconTest : List Char → Bool
  | [] => false
  | c :: rest =>
      ("icon".data.isPrefixOf (c :: rest) && iconAt ((c :: rest).drop 4)) || iconTest rest

/-- Embedding of `EXCLUDE_PATTERNS` (src/lib/screenshots.ts lines 63-89) as a
single test on the URL: every pattern is `/i`-flagged, so all tests run on
the lower-cased URL; `A.*B` regexes become `containsSeq`, plain literals
`containsSub`, `\.ico$` a suffix test. -/
def excludedUrl (url : String) : Bool :=
  containsSub (lowerData url) "avatars.githubusercontent.com".data ||
  containsSeq (lowerData url) ["github.com/", ".avatar"] ||
  containsSub (lowerData url) "shields.io".data ||
  containsSub (lowerData url) "badge.fury.io".data ||
  containsSub (lowerData url) "badgen.net".data ||
  containsSub (lowerData url) "img.shields.io".data ||
  containsSeq (lowerData url) ["codecov.io/", "/badge"] ||
  containsSeq (lowerData url) ["coveralls.io/repos/", "/badge"] ||
  containsSeq (lowerData url) ["travis-ci.org/", ".svg"] ||
  containsSeq (lowerData url) ["travis-ci.com/", ".svg"] ||
  containsSeq (lowerData url) ["circleci.com/", ".svg"] ||
  containsSeq (lowerData url) ["github.com/", "/workflows/", "/badge"] ||
  containsSeq (lowerData url) ["github.com/", "/actions/workflows/", ".svg"] ||
  ".ico".data.isSuffixOf (lowerData url) ||
  containsSub (lowerData url) "favicon".data ||
  iconTest (lowerData url) ||
  containsSub (lowerData url) "emoji".data ||
  containsSub (lowerData url) "twemoji".data ||
  containsSub (lowerData url) "status-icon".data ||
  containsSub (lowerData url) "status.svg".data ||
  containsSub (lowerData url) "indicator".data

/-- Hostname of a URL, modelling `new URL(url).hostname` for hierarchical
`scheme://[user@]host[:port]/...` URLs (the only shapes image URLs take):
scheme letters, "://", authority up to '/', '?' or '#', userinfo before the
last '@' stripped, port after ':' stripped, hostname lower-cased.  Inputs
outside this shape are treated as invalid URLs (the `new URL` throw). -/
def parseUrlHost (url : String) : Option String :=
  if (url.data.takeWhile (fun c => c.isAlpha)).isEmpty then none
  else
    match url.data.drop (url.data.takeWhile (fun c => c.isAlpha)).length with
    | ':' :: '/' :: '/' :: r =>
      if (r.takeWhile (fun c => c != '/' && c != '?' && c != '#')).isEmpty then none
      else
        some (String.mk
          ((((if (r.takeWhile (fun c => c != '/' && c != '?' && c != '#')).contains '@' then
                ((r.takeWhile (fun c => c != '/' && c != '?' && c != '#')).reverse.takeWhile
                  (fun c => c != '@')).reverse
              else
                r.takeWhile (fun c => c != '/' && c != '?' && c != '#'))).takeWhile
            (fun c => c != ':')).map Char.toLower))
    | _ => none

/-- Embedding of `KNOWN_IMAGE_HOSTS` as used by the validity filter
(src/lib/screenshots.ts lines 223-232). -/
def knownImageHosts : List String :=
  ["user-images.githubusercontent.com", "private-user-images.githubusercontent.com",
   "imgur.com", "i.imgur.com", "cloudinary.com", "res.cloudinary.com",
   "imagekit.io", "ik.imagekit.io"]

/-- Embedding of `isValidScreenshotUrl` (src/lib/screenshots.ts lines
199-240): URL must parse, must not match an exclusion pattern or carry a
small-dimension hint (case-sensitive `includes`), and must have an image
extension or a known image host. -/
def isValidScreenshotUrl (url : String) : Bool :=
  match parseUrlHost url with
  | none => false
  | some hostname =>
    if excludedUrl url then false
    else if minDimensionHints.any (fun hint => containsSub url.data hint.data) then false
    else extTest (lowerData url) ||
      knownImageHosts.any (fun host => containsSub hostname.data host.data)

/-- Embedding of `SCREENSHOT_BOTS` (src/lib/screenshots.ts lines 8-38) as an
association list (keys are already lower-case in the source). -/
def screenshotBots : List (String × String) :=
  [("vercel", "vercel"), ("vercel[bot]", "vercel"),
   ("chromatic-com", "chromatic"), ("chromatic-com[bot]", "chromatic"),
   ("chromatic", "chromatic"),
   ("percy-bot", "percy"), ("percy[bot]", "percy"), ("percy", "percy"),
   ("netlify", "netlify"), ("netlify[bot]", "netlify"),
   ("cloudflare-pages", "cloudflare"), ("cloudflare-pages[bot]", "cloudflare"),
   ("cloudflare", "cloudflare"),
   ("railway-app", "railway"), ("railway-app[bot]", "railway"),
   ("railway", "railway"),
   ("render", "render"), ("render[bot]", "render"),
   ("fly", "fly"), ("fly[bot]", "fly"), ("fly-apps", "fly")]

/-- Embedding of `identifyScreenshotSource` (src/lib/screenshots.ts lines
176-194): bot-account lookup on the lower-cased author first, then the
`SOURCE_URL_PATTERNS` tests in order, else "generic". -/
def identifyScreenshotSource (author url : String) : String :=
  match screenshotBots.lookup (String.mk (lowerData author)) with
  | some s => s
  | none =>
    if containsSub (lowerData url) "vercel.com".data ||
        containsSub (lowerData url) "vercel.app".data ||
        containsSub (lowerData url) ".vercel.sh".data then "vercel"
    else if containsSub (lowerData url) "chromatic.com".data ||
        containsSub (lowerData url) "chromaticqa.com".data then "chromatic"
    else if containsSub (lowerData url) "percy.io".data then "percy"
    else if containsSub (lowerData url) "netlify.app".data ||
        containsSub (lowerData url) "netlify.com".data then "netlify"
    else if containsSub (lowerData url) ".pages.dev".data then "cloudflare"
    else if containsSub (lowerData url) ".railway.app".data then "railway"
    else if containsSub (lowerData url) ".onrender.com".data then "render"
    else if containsSub (lowerData url) ".fly.dev".data then "fly"
    else "generic"

/-- Embedding of `MAX_SCREENSHOTS` (src/lib/screenshots.ts line 5). -/
def MAX_SCREENSHOTS : Nat := 6

/-- The inner image loop of `parseScreenshotsFromComments` (src/lib/
screenshots.ts lines 105-125): skip invalid URLs, push a record whose
`display_order` is the current count, and signal an early return once the
cap is reached. -/
def addImagesFromComment (comment : PRComment) :
    List ImageRef → List ScreenshotRec → List ScreenshotRec × Bool
  | [], acc => (acc, false)
  | image :: images, acc =>
    if isValidScreenshotUrl image.url then
      if MAX_SCREENSHOTS ≤ (acc ++
          [{ url := image.url, alt_text := image.alt,
             source := identifyScreenshotSource comment.user.login image.url,
             comment_id := comment.id,
             comment_author := some comment.user.login,
             display_order := acc.length : ScreenshotRec }]).length then
        (acc ++
          [{ url := image.url, alt_text := image.alt,
             source := identifyScreenshotSource comment.user.login image.url,
             comment_id := comment.id,
             comment_author := some comment.user.login,
             display_order := acc.length }], true)
      else
        addImagesFromComment comment images (acc ++
          [{ url := image.url, alt_text := image.alt,
             source := identifyScreenshotSource comment.user.login image.url,
             comment_id := comment.id,
             comment_author := some comment.user.login,
             display_order := acc.length }])
    else addImagesFromComment comment images acc

/-- The outer comment loop: stop as soon as the cap was hit. -/
def parseScreenshotsGo : List PRComment → List ScreenshotRec → List ScreenshotRec
  | [], acc => acc
  | comment :: comments, acc =>
    match addImagesFromComment comment (extractImagesFromMarkdown comment.body) acc with
    | (acc2, true) => acc2
    | (acc2, false) => parseScreenshotsGo comments acc2

/-- Embedding of `parseScreenshotsFromComments` (src/lib/screenshots.ts
lines 97-129). -/
def parseScreenshotsFromComments (comments : List PRComment) : List ScreenshotRec :=
  parseScreenshotsGo comments []

/-- Example comment carrying one real screenshot and one badge. -/
def exampleComment : PRComment :=
  { id := 7, user := { login := "alice" },
    body := "Preview: ![preview](https://user-images.githubusercontent.com/1/shot.png) and badge ![icon](https://shields.io/badge.svg)" }

/-- The screenshot record the example comment should yield. -/
def expectedShot : ScreenshotRec :=
  { url := "https://user-images.githubusercontent.com/1/shot.png",
    alt_text := some "preview", source := "generic", comment_id := 7,
    comment_author := some "alice", display_order := 0 }

/- ### Narrative synthesizer adapter (src/lib/claude.ts) -/

/-- Embedding of `AIAnalysis` (src/lib/claude.ts lines 10-14).  The TypeScript
type annotates `changeType` with the 5-value union, but the union is erased at
runtime and nothing checks it, so the runtime value is an arbitrary string. -/
structure AIAnalysis where
  summary : String
  script : String
  changeType : String
deriving DecidableEq

/-- Embedding of `MultiPRAIAnalysis` (src/lib/claude.ts lines 104-106). -/
structure MultiPRAIAnalysis extends AIAnalysis where
  unifiedTitle : String
deriving DecidableEq

/-- The object produced by `JSON.parse` on the JSON block extracted from the
narrative collaborator's response in `analyzePR`, restricted to the fields the
adapter reads. -/
structure RawAnalysisJson where
  summary : String
  script : String
  changeType : String
deriving DecidableEq

/-- The parsed JSON object read by `analyzeMultiplePRs`. -/
structure RawMultiAnalysisJson extends RawAnalysisJson where
  unifiedTitle : String
deriving DecidableEq

/-- Embedding of the tail of `analyzePR` (src/lib/claude.ts lines 95-101).  The
failure paths of the adapter (no text block, line 85; no JSON match, line 92)
fire before a parsed object exists; once `result` is parsed its fields are
returned as the analysis with no validation of `changeType`. -/
def analyzePRFromJson (result : RawAnalysisJson) : Except String AIAnalysis :=
  .ok { summary := result.summary, script := result.script,
        changeType := result.changeType }

/-- Embedding of the tail of `analyzeMultiplePRs` (src/lib/claude.ts lines
203-210); like `analyzePRFromJson`, no validation of `changeType`. -/
def analyzeMultiplePRsFromJson (result : RawMultiAnalysisJson) :
    Except String MultiPRAIAnalysis :=
  .ok { unifiedTitle := result.unifiedTitle, summary := result.summary,
        script := result.script, changeType := result.changeType }

/-- The change-type enumeration of the specification (src/lib/types.ts line
17): `"feature" | "bugfix" | "refactor" | "docs" | "other"`. -/
def changeTypeEnum : List String := ["feature", "bugfix", "refactor", "docs", "other"]

/- ### Video rows (src/lib/types.ts) and the processing pipeline -/

/-- Embedding of the `videos` row (src/lib/types.ts lines 19-65) restricted to
the columns written by the routes under verification.  `audio_duration_ms` and
`screenshot_count` are columns written by src/app/api/videos/route.ts that the
`Video` interface does not re-declare. -/
structure Video where
  pr_title : Option String := none
  pr_description : Option String := none
  pr_author : Option String := none
  pr_author_avatar : Option String := none
  pr_files_changed : Option Nat := none
  pr_additions : Option Nat := none
  pr_deletions : Option Nat := none
  pr_count : Nat := 1
  total_files_changed : Option Nat := none
  total_additions : Option Nat := none
  total_deletions : Option Nat := none
  ai_summary : Option String := none
  ai_script : Option String := none
  change_type : Option String := none
  audio_url : Option String := none
  audio_duration_ms : Option Nat := none
  screenshot_count : Option Nat := none
  status : String := "pending"
  error_message : Option String := none
deriving DecidableEq

/-- HTTP-level outcome of the retry route. -/
inductive RetryResponse where
  | success
  | clientError (statusCode : Nat) (msg : String)
deriving DecidableEq

/-- Embedding of `retryableStatuses` (src/unnamed/part_001 line 118). -/
def retryableStatuses : List String := ["failed", "rendering"]

/-- Embedding of the retry route handler (src/unnamed/part_001 lines 107-148)
after the ownership lookup succeeded: the status precondition check and the
conditional reset of `status` and `error_message`.  The pair returns the HTTP
outcome together with the row as it stands after the request (unchanged when
the precondition fails, since the update statement is never issued). -/
def retryVideo (video : Video) : RetryResponse × Video :=
  if retryableStatuses.contains video.status then
    (.success, { video with status := "pending", error_message := none })
  else
    (.clientError 400 "Can only retry failed or stuck videos", video)

/-- Embedding of the happy path of `processVideo` (src/app/api/videos/route.ts
lines 146-482) as the sequence of `videos`-row updates it performs.  External
collaborators enter as parameters: `prDataResults` is the fan-in of the GitHub
fetches (empty list models the unreachable crash case), `screenshotCount` the
extractor's result count, `multiAnalysis`/`singleAnalysis` the narrative
collaborator's parsed response for the branch taken, `audioUrl`/
`audioDurationMs` the voice stage outputs, and `remotionConfigured` whether
`REMOTION_SERVER_URL` is set (when it is not, the job is marked complete
directly, lines 459-469).  `isMultiPR` is `videoPRs.length > 1`
(line 162), which coincides with `prDataResults.length > 1` because
`prDataResults` is built index-for-index from the sorted `videoPRs` (and from
the singleton legacy row when `video_prs` is empty). -/
def processVideoRow (video : Video) (prDataResults : List PRData)
    (screenshotCount : Nat) (multiAnalysis : MultiPRAIAnalysis)
    (singleAnalysis : AIAnalysis) (audioUrl : String) (audioDurationMs : Nat)
    (remotionConfigured : Bool) : Option Video :=
  match prDataResults with
  | [] => none
  | firstPRData :: _ =>
    let isMultiPR : Bool := decide (1 < prDataResults.length)
    let v1 := { video with status := "analyzing" }
    let totalFilesChanged := prDataResults.foldl (fun sum pr => sum + pr.filesChanged) 0
    let totalAdditions := prDataResults.foldl (fun sum pr => sum + pr.additions) 0
    let totalDeletions := prDataResults.foldl (fun sum pr => sum + pr.deletions) 0
    let v2 := { v1 with
      pr_title := some firstPRData.title,
      pr_description := some firstPRData.description,
      pr_author := some firstPRData.author,
      pr_author_avatar := some firstPRData.authorAvatar,
      pr_files_changed := some firstPRData.filesChanged,
      pr_additions := some firstPRData.additions,
      pr_deletions := some firstPRData.deletions,
      total_files_changed := some totalFilesChanged,
      total_additions := some totalAdditions,
      total_deletions := some totalDeletions,
      screenshot_count := some screenshotCount }
    let v3 := if isMultiPR then { v2 with pr_title := some multiAnalysis.unifiedTitle } else v2
    let analysis := if isMultiPR then multiAnalysis.toAIAnalysis else singleAnalysis
    let v4 := { v3 with
      ai_summary := some analysis.summary,
      ai_script := some analysis.script,
      change_type := some analysis.changeType,
      status := "generating_audio" }
    let v5 := { v4 with
      audio_url := some audioUrl,
      audio_duration_ms := some audioDurationMs,
      status := "rendering" }
    some (if remotionConfigured then v5 else { v5 with status := "complete" })

/- ### Submission validation (src/app/api/videos/route.ts lines 47-144 and
src/app/api/v1/videos/route.ts lines 53-189) -/

/-- Embedding of `ParsedPRInfo` (src/lib/types.ts lines 95-100). -/
structure ParsedPRInfo where
  owner : String
  repo : String
  number : Nat
  url : String
deriving DecidableEq

/-- The client-error outcomes of the submission routes, before any row is
inserted. -/
inductive SubmitReject where
  | noUrls
  | tooMany
  | invalidUrl (url : String)
  | crossRepository
  | duplicate
deriving DecidableEq

/-- The parse loop of the submission routes (src/app/api/videos/route.ts
lines 66-76): each URL through `parsePRUrl`, failing with the first invalid
URL, otherwise collecting `{...prInfo, url}` in order. -/
def parseAllPRUrls : List String → Except String (List ParsedPRInfo)
  | [] => .ok []
  | url :: rest =>
    match parsePRUrl url with
    | none => .error url
    | some prInfo =>
      match parseAllPRUrls rest with
      | .error u => .error u
      | .ok parsed =>
          .ok ({ owner := prInfo.owner, repo := prInfo.repo,
                 number := prInfo.number, url := url } :: parsed)

/-- The `videos` row insert payload (src/app/api/videos/route.ts lines
101-114), restricted to the validated fields. -/
structure NewVideoRow where
  user_id : String
  pr_url : String
  pr_owner : String
  pr_repo : String
  pr_number : Nat
  pr_count : Nat
  share_id : String
  status : String
deriving DecidableEq

/-- Embedding of the validation phase of the submission POST handlers
(src/app/api/videos/route.ts lines 47-114; src/app/api/v1/videos/route.ts
lines 53-135 is identical validation after its auth/rate-limit gates): count
bounds, per-URL parse, the same-repository loop against the first reference
(`List.any` returns the same error as the early-returning loop), and the
duplicate check (`new Set(ns).size !== ns.length` holds exactly when the
number list has a duplicate, i.e. is not `Nodup`).  The `.ok` payload is the
row the route would insert; every `.error` outcome returns before the insert,
so no Job state is produced.  The inner `[]` match arm is unreachable (a
non-empty URL list parses to a non-empty reference list). -/
def submitVideosPost (userId : String) (prUrls : List String) (shareId : String) :
    Except SubmitReject NewVideoRow :=
  if prUrls.length = 0 then .error .noUrls
  else if 10 < prUrls.length then .error .tooMany
  else
    match parseAllPRUrls prUrls with
    | .error u => .error (.invalidUrl u)
    | .ok parsedPRs =>
      match parsedPRs with
      | [] => .error .noUrls
      | firstPR :: _ =>
        if parsedPRs.any (fun pr =>
            pr.owner != firstPR.owner || pr.repo != firstPR.repo) then
          .error .crossRepository
        else if ¬ (parsedPRs.map (fun pr => pr.number)).Nodup then
          .error .duplicate
        else
          .ok { user_id := userId, pr_url := firstPR.url, pr_owner := firstPR.owner,
                pr_repo := firstPR.repo, pr_number := firstPR.number,
                pr_count := parsedPRs.length, share_id := shareId,
                status := "pending" }

/-- Two URLs naming different repositories, for the validation witness. -/
def crossRepoUrls : List String :=
  ["https://github.com/a/r/pull/1", "https://github.com/b/r/pull/1"]

/-- The parse of `crossRepoUrls`. -/
def crossRepoParsed : List ParsedPRInfo :=
  [{ owner := "a", repo := "r", number := 1, url := "https://github.com/a/r/pull/1" },
   { owner := "b", repo := "r", number := 1, url := "https://github.com/b/r/pull/1" }]

/- ### Voice duration (src/lib/resend.ts, `calculateMp3Duration`) -/

/-- JavaScript `Math.round` on an exact rational: floor of `x + 1/2`. -/
def jsMathRound (x : ℚ) : ℤ := ⌊x + 1 / 2⌋

/-- Embedding of `calculateMp3Duration` (src/lib/resend.ts lines 71-85).  The
external `music-metadata.parseBuffer` call enters as `parsed`: `none` when the
parse throws, `some fmt` when it succeeds, where `fmt` is the optional
`metadata.format.duration` in seconds (`fmt.getD 0` models `duration || 0`).
On parse failure the duration is estimated from the byte length at an assumed
128 kbps bitrate. -/
def calculateMp3Duration (parsed : Option (Option ℚ)) (byteLength : Nat) : ℤ :=
  match parsed with
  | some fmt => jsMathRound (fmt.getD 0 * 1000)
  | none =>
      let fileSizeBytes : ℚ := byteLength
      let bitrateKbps : ℚ := 128
      let durationSeconds := fileSizeBytes * 8 / (bitrateKbps * 1000)
      jsMathRound (durationSeconds * 1000)

/-- Two sample items used to instantiate the multi-item theorems. -/
def samplePR1 : PRData :=
  { title := "First change", description := "", author := "alice",
    authorAvatar := "", filesChanged := 1, additions := 2, deletions := 3,
    files := [], commits := [] }

/-- Second sample item. -/
def samplePR2 : PRData :=
  { title := "Second change", description := "", author := "bob",
    authorAvatar := "", filesChanged := 4, additions := 5, deletions := 6,
    files := [], commits := [] }

/-- Sample multi-item narrative response. -/
def sampleMultiAnalysis : MultiPRAIAnalysis :=
  { unifiedTitle := "Unified story", summary := "sum", script := "script",
    changeType := "feature" }

/-- Sample single-item narrative response. -/
def sampleSingleAnalysis : AIAnalysis :=
  { summary := "single", script := "single script", changeType := "bugfix" }

/- ### Theorems -/

theorem rateStore_set_get (store : RateStore) (k : String) (r : RateRecord) :
    (store.set k r) k = some r := by
  simp [RateStore.set]

theorem rateStateAfter_at (keyId : String) (ts : Nat → Nat) (store : RateStore)
    (h0 : store keyId = none) (hts : ∀ i, i ≤ 10 → ts i ≤ ts 0 + 60000) :
    ∀ k, k ≤ 10 → 1 ≤ k →
      (rateStateAfter keyId 10 60000 ts store k) keyId = some ⟨k, ts 0 + 60000⟩ := by
  intro k
  induction k with
  | zero => omega
  | succ n ih =>
    intro hk _
    by_cases hn : n = 0
    · subst hn
      simp [rateStateAfter, checkRateLimit, h0, RateStore.set]
    · have hn1 : 1 ≤ n := Nat.one_le_iff_ne_zero.mpr hn
      have hn10 : n ≤ 10 := by omega
      have hstate := ih hn10 hn1
      have hts_n : ts n ≤ ts 0 + 60000 := hts n hn10
      simp only [rateStateAfter, checkRateLimit, hstate]
      rw [if_neg (by omega : ¬ (ts 0 + 60000 < ts n))]
      rw [if_neg (by omega : ¬ (10 ≤ n))]
      simp [RateStore.set]

/-- C1: under the fixed-window rate limiter with limit 10 and window 60000 ms,
for any key that is fresh in the store and any sequence of 11 call times that
all lie inside the window opened by the first call, the first 10 calls are
allowed and the 11th is denied with `remaining = 0` and
`resetAt = ts 0 + 60000`, which is no earlier than the window start `ts 0`. -/
theorem checkRateLimit_fixed_window (keyId : String) (ts : Nat → Nat) (store : RateStore)
    (h0 : store keyId = none) (hts : ∀ i, i ≤ 10 → ts i ≤ ts 0 + 60000) :
    (∀ i, i < 10 → (rateCallResult keyId 10 60000 ts store i).allowed = true)
    ∧ rateCallResult keyId 10 60000 ts store 10 = ⟨false, 0, ts 0 + 60000⟩
    ∧ ts 0 ≤ (rateCallResult keyId 10 60000 ts store 10).resetAt := by
  have hmid : ∀ i, 1 ≤ i → i ≤ 10 →
      rateCallResult keyId 10 60000 ts store i =
        if 10 ≤ i then ⟨false, 0, ts 0 + 60000⟩
        else ⟨true, 10 - (i + 1), ts 0 + 60000⟩ := by
    intro i hi1 hi10
    have hstate := rateStateAfter_at keyId ts store h0 hts i hi10 hi1
    have hts_i : ts i ≤ ts 0 + 60000 := hts i hi10
    simp only [rateCallResult, checkRateLimit, hstate]
    rw [if_neg (by omega : ¬ (ts 0 + 60000 < ts i))]
    by_cases h : 10 ≤ i
    · rw [if_pos h, if_pos h]
    · rw [if_neg h, if_neg h]
  refine ⟨?_, ?_, ?_⟩
  · intro i hi
    by_cases hi0 : i = 0
    · subst hi0
      simp [rateCallResult, rateStateAfter, checkRateLimit, h0]
    · have := hmid i (Nat.one_le_iff_ne_zero.mpr hi0) (by omega)
      rw [this, if_neg (by omega : ¬ (10 ≤ i))]
  · have := hmid 10 (by omega) (by omega)
    rw [this, if_pos (by omega)]
  · have := hmid 10 (by omega) (by omega)
    rw [this, if_pos (by omega)]
    exact Nat.le_add_right _ _

/-- Concrete instantiation of `checkRateLimit_fixed_window`: key "k", empty
store, all 11 calls at time 0. -/
theorem checkRateLimit_fixed_window_witness :
    ((fun _ => (none : Option RateRecord)) "k" = none)
    ∧ (rateCallResult "k" 10 60000 (fun _ => 0) (fun _ => none) 0).allowed = true
    ∧ (rateCallResult "k" 10 60000 (fun _ => 0) (fun _ => none) 9).allowed = true
    ∧ rateCallResult "k" 10 60000 (fun _ => 0) (fun _ => none) 10 = ⟨false, 0, 60000⟩ := by
  have h := checkRateLimit_fixed_window "k" (fun _ => 0) (fun _ => none) rfl
    (fun i _ => Nat.zero_le _)
  exact ⟨rfl, h.1 0 (by omega), h.1 9 (by omega), h.2.1⟩

theorem intercalate_go_append (s m acc : String) (as : List String) :
    String.intercalate.go acc s (as ++ [m]) = String.intercalate.go acc s as ++ s ++ m := by
  induction as generalizing acc with
  | nil => simp [String.intercalate.go]
  | cons a as ih => simp [String.intercalate.go, ih]

theorem intercalate_append_singleton (s m a : String) (as : List String) :
    String.intercalate s ((a :: as) ++ [m]) = String.intercalate s (a :: as) ++ s ++ m := by
  simp [String.intercalate, intercalate_go_append]

theorem truncation_shape (lines : List String) (patch : String) (maxLines : Nat)
    (h : maxLines < lines.length) (h0 : 0 < maxLines) :
    (if lines.length ≤ maxLines then patch
     else String.intercalate "\n" (lines.take maxLines) ++
       ("\n... (" ++ toString (lines.length - maxLines) ++
         " more lines truncated)")) =
    String.intercalate "\n" (lines.take maxLines ++
      ["... (" ++ toString (lines.length - maxLines) ++
        " more lines truncated)"]) := by
  rw [if_neg (by omega)]
  rcases lines with _ | ⟨a, tl⟩
  · simp at h
  · rcases maxLines with _ | m
    · omega
    · rw [List.take_succ_cons, intercalate_append_singleton]
      have hsplit : ("\n... (" : String) = "\n" ++ "... (" := by decide
      simp only [String.append_assoc]
      rw [hsplit]
      simp only [String.append_assoc]

theorem splitLinesAux_no_newline (cs : List Char) (acc : List Char)
    (h : '\n' ∉ cs) : splitLinesAux cs acc = [String.mk (acc.reverse ++ cs)] := by
  induction cs generalizing acc with
  | nil => simp [splitLinesAux]
  | cons c rest ih =>
    have hc : c ≠ '\n' := fun he => h (he ▸ List.mem_cons_self c rest)
    have hrest : '\n' ∉ rest := fun hm => h (List.mem_cons_of_mem c hm)
    simp [splitLinesAux, hc, ih _ hrest]

theorem splitLinesAux_newline (cs rest acc : List Char) (h : '\n' ∉ cs) :
    splitLinesAux (cs ++ '\n' :: rest) acc =
      String.mk (acc.reverse ++ cs) :: splitLinesAux rest [] := by
  induction cs generalizing acc with
  | nil => simp [splitLinesAux]
  | cons c cs' ih =>
    have hc : c ≠ '\n' := fun he => h (he ▸ List.mem_cons_self c cs')
    have hcs : '\n' ∉ cs' := fun hm => h (List.mem_cons_of_mem c hm)
    simp [splitLinesAux, hc, ih _ hcs]

theorem intercalate_go_cons (s : String) :
    ∀ (bs : List String) (b acc : String),
      String.intercalate.go acc s (b :: bs) =
        acc ++ s ++ String.intercalate.go b s bs := by
  intro bs
  induction bs with
  | nil => intro b acc; simp [String.intercalate.go]
  | cons c bs' ih =>
    intro b acc
    show String.intercalate.go (acc ++ s ++ b) s (c :: bs') = _
    rw [ih c (acc ++ s ++ b), ih c b]
    simp [String.append_assoc]

theorem intercalate_cons_cons (s a b : String) (bs : List String) :
    String.intercalate s (a :: b :: bs) = a ++ s ++ String.intercalate s (b :: bs) := by
  show String.intercalate.go a s (b :: bs) = _
  rw [intercalate_go_cons s bs b a]
  rfl

theorem jsSplitNewline_intercalate (lines : List String)
    (h : ∀ l ∈ lines, '\n' ∉ l.data) (hne : lines ≠ []) :
    jsSplitNewline (String.intercalate "\n" lines) = lines := by
  induction lines with
  | nil => exact absurd rfl hne
  | cons a tl ih =>
    rcases tl with _ | ⟨b, bs⟩
    · show splitLinesAux (String.intercalate "\n" [a]).data [] = [a]
      have : String.intercalate "\n" [a] = a := rfl
      rw [this, splitLinesAux_no_newline a.data [] (h a (List.mem_cons_self a []))]
      simp
    · have ha : '\n' ∉ a.data := h a (List.mem_cons_self _ _)
      have htl : ∀ l ∈ b :: bs, '\n' ∉ l.data :=
        fun l hl => h l (List.mem_cons_of_mem a hl)
      show splitLinesAux (String.intercalate "\n" (a :: b :: bs)).data [] = _
      rw [intercalate_cons_cons]
      have hdata : (a ++ "\n" ++ String.intercalate "\n" (b :: bs)).data =
          a.data ++ '\n' :: (String.intercalate "\n" (b :: bs)).data := by
        simp [String.data_append]
      rw [hdata, splitLinesAux_newline a.data _ [] ha]
      have := ih htl (by simp)
      simp only [List.reverse_nil, List.nil_append]
      rw [show splitLinesAux (String.intercalate "\n" (b :: bs)).data [] =
            jsSplitNewline (String.intercalate "\n" (b :: bs)) from rfl, this]

/-- C4: single-item truncation.  A patch of more than 500 lines is cut to its
first 500 lines followed by one marker line carrying the count of removed
lines; a patch of at most 500 lines is returned unchanged. -/
theorem truncatePatch_spec (patch : String) :
    (500 < (jsSplitNewline patch).length →
      truncatePatch patch 500 =
        String.intercalate "\n" ((jsSplitNewline patch).take 500 ++
          ["... (" ++ toString ((jsSplitNewline patch).length - 500) ++
            " more lines truncated)"]))
    ∧ ((jsSplitNewline patch).length ≤ 500 → truncatePatch patch 500 = patch) := by
  constructor
  · intro h
    unfold truncatePatch
    exact truncation_shape (jsSplitNewline patch) patch 500 h (by omega)
  · intro h
    unfold truncatePatch
    rw [if_pos h]

theorem sixHundredLinePatch_lines : jsSplitNewline sixHundredLinePatch = List.replicate 600 "x" := by
  unfold sixHundredLinePatch
  apply jsSplitNewline_intercalate
  · intro l hl
    rw [List.eq_of_mem_replicate hl]
    decide
  · exact List.length_pos.mp (by rw [List.length_replicate]; omega)

/-- Concrete instantiation of `truncatePatch_spec`: a 600-line patch yields
its first 500 lines plus one marker line reporting 100 truncated lines. -/
theorem truncatePatch_spec_witness :
    500 < (jsSplitNewline sixHundredLinePatch).length ∧
    truncatePatch sixHundredLinePatch 500 =
      String.intercalate "\n" ((jsSplitNewline sixHundredLinePatch).take 500 ++
        ["... (" ++ toString ((jsSplitNewline sixHundredLinePatch).length - 500) ++
          " more lines truncated)"]) := by
  have hlen : 500 < (jsSplitNewline sixHundredLinePatch).length := by
    rw [sixHundredLinePatch_lines, List.length_replicate]; omega
  exact ⟨hlen, (truncatePatch_spec sixHundredLinePatch).1 hlen⟩

theorem retryable_iff (s : String) :
    retryableStatuses.contains s = true ↔ (s = "failed" ∨ s = "rendering") := by
  simp [retryableStatuses]

/-- C2: the retry route succeeds exactly when the job status is `failed` or
`rendering`; on success it resets the status to `pending` and clears
`error_message`; on any other status (in particular `complete`) it answers
with a 400 client error and leaves the row unchanged. -/
theorem retryVideo_spec (v : Video) :
    ((retryVideo v).1 = .success ↔ (v.status = "failed" ∨ v.status = "rendering"))
    ∧ ((v.status = "failed" ∨ v.status = "rendering") →
        (retryVideo v).2 = { v with status := "pending", error_message := none })
    ∧ ((v.status ≠ "failed" ∧ v.status ≠ "rendering") →
        (retryVideo v).1 = .clientError 400 "Can only retry failed or stuck videos"
        ∧ (retryVideo v).2 = v)
    ∧ (v.status = "complete" →
        (retryVideo v).1 = .clientError 400 "Can only retry failed or stuck videos"
        ∧ (retryVideo v).2 = v) := by
  by_cases h : v.status = "failed" ∨ v.status = "rendering"
  · have he : retryVideo v =
        (.success, { v with status := "pending", error_message := none }) := by
      unfold retryVideo
      rw [if_pos ((retryable_iff v.status).mpr h)]
    refine ⟨⟨fun _ => h, fun _ => by rw [he]⟩, fun _ => by rw [he],
            fun hn => absurd h (by tauto), fun hc => ?_⟩
    rcases h with h | h <;> rw [hc] at h <;> exact absurd h (by decide)
  · have he : retryVideo v =
        (.clientError 400 "Can only retry failed or stuck videos", v) := by
      unfold retryVideo
      rw [if_neg (fun hc => h ((retryable_iff v.status).mp hc))]
    refine ⟨⟨fun hsucc => ?_, fun hy => absurd hy h⟩, fun hy => absurd hy h,
            fun _ => ⟨by rw [he], by rw [he]⟩, fun _ => ⟨by rw [he], by rw [he]⟩⟩
    rw [he] at hsucc
    simp at hsucc

/-- Concrete instantiation of `retryVideo_spec`: a failed row is reset, a
complete row is rejected unchanged. -/
theorem retryVideo_spec_witness :
    (({ status := "failed", error_message := some "boom" } : Video).status = "failed" ∨
      ({ status := "failed", error_message := some "boom" } : Video).status = "rendering")
    ∧ (retryVideo { status := "failed", error_message := some "boom" }).2 =
        { ({ status := "failed", error_message := some "boom" } : Video) with
          status := "pending", error_message := none }
    ∧ (retryVideo { status := "complete" }).1 =
        .clientError 400 "Can only retry failed or stuck videos"
    ∧ (retryVideo { status := "complete" }).2 = { status := "complete" } := by
  have h1 := (retryVideo_spec { status := "failed", error_message := some "boom" }).2.1
    (Or.inl rfl)
  have h2 := (retryVideo_spec { status := "complete" }).2.2.2 rfl
  exact ⟨Or.inl rfl, h1, h2.1, h2.2⟩

theorem foldl_add_eq_sum {α : Type} (f : α → Nat) (l : List α) (n : Nat) :
    l.foldl (fun sum x => sum + f x) n = n + (l.map f).sum := by
  induction l generalizing n with
  | nil => simp
  | cons a tl ih => simp [ih, Nat.add_assoc]

/-- C3: on every multi-item run (2 to 10 items) the pipeline persists totals
that are the sums of the per-item metrics, and persists the synthesizer's
`unifiedTitle` as the job title. -/
theorem processVideo_multi_totals (video : Video) (prs : List PRData)
    (screenshotCount : Nat) (multiA : MultiPRAIAnalysis) (singleA : AIAnalysis)
    (audioUrl : String) (durMs : Nat) (rc : Bool)
    (h2 : 2 ≤ prs.length) (h10 : prs.length ≤ 10) :
    ∃ v, processVideoRow video prs screenshotCount multiA singleA audioUrl durMs rc = some v
      ∧ v.total_additions = some ((prs.map PRData.additions).sum)
      ∧ v.total_deletions = some ((prs.map PRData.deletions).sum)
      ∧ v.total_files_changed = some ((prs.map PRData.filesChanged).sum)
      ∧ v.pr_title = some multiA.unifiedTitle := by
  rcases prs with _ | ⟨p, rest⟩
  · simp at h2
  · have hrest : 0 < rest.length := by
      simp only [List.length_cons] at h2
      omega
    refine ⟨_, rfl, ?_, ?_, ?_, ?_⟩ <;>
      cases rc <;>
      simp [processVideoRow, hrest, foldl_add_eq_sum]

/-- Concrete instantiation of `processVideo_multi_totals` on two sample
items: totals 7/9/5 and the unified title. -/
theorem processVideo_multi_totals_witness :
    2 ≤ ([samplePR1, samplePR2] : List PRData).length
    ∧ (processVideoRow {} [samplePR1, samplePR2] 0 sampleMultiAnalysis
        sampleSingleAnalysis "audio.mp3" 1234 true).map Video.total_additions =
        some (some 7)
    ∧ (processVideoRow {} [samplePR1, samplePR2] 0 sampleMultiAnalysis
        sampleSingleAnalysis "audio.mp3" 1234 true).map Video.pr_title =
        some (some "Unified story") := by
  obtain ⟨v, heq, hadd, _, _, htitle⟩ :=
    processVideo_multi_totals {} [samplePR1, samplePR2] 0 sampleMultiAnalysis
      sampleSingleAnalysis "audio.mp3" 1234 true (by decide) (by decide)
  refine ⟨by decide, ?_, ?_⟩
  · rw [heq]
    show some v.total_additions = some (some 7)
    rw [hadd]
    decide
  · rw [heq]
    show some v.pr_title = some (some "Unified story")
    rw [htitle]
    decide

/-- C7: the narrative adapters perform no validation of `changeType`.  A
response whose `changeType` is the out-of-enumeration value "chore" is
returned unchanged by both the single-item and the multi-item adapter instead
of raising a parse error: the code diverges here from the specified protocol
violation. -/
theorem analyze_changeType_unvalidated :
    analyzePRFromJson { summary := "s", script := "sc", changeType := "chore" } =
      .ok { summary := "s", script := "sc", changeType := "chore" }
    ∧ analyzeMultiplePRsFromJson
        { summary := "s", script := "sc", changeType := "chore", unifiedTitle := "t" } =
      .ok { unifiedTitle := "t", summary := "s", script := "sc", changeType := "chore" }
    ∧ ("chore" ∈ changeTypeEnum) = False := by
  refine ⟨rfl, rfl, ?_⟩
  simp [changeTypeEnum]

/-- C8: the voice-duration computation returns the rounded metadata-derived
duration whenever container parsing succeeds, and only on parse failure falls
back to the 128 kbps estimate, which simplifies to `byteLength / 16`
milliseconds. -/
theorem calculateMp3Duration_spec (parsed : Option (Option ℚ)) (byteLength : Nat) :
    (∀ fmt, parsed = some fmt →
      calculateMp3Duration parsed byteLength = jsMathRound (fmt.getD 0 * 1000))
    ∧ (parsed = none →
      calculateMp3Duration parsed byteLength =
        jsMathRound ((byteLength : ℚ) * 8 / (128 * 1000) * 1000))
    ∧ (parsed = none →
      calculateMp3Duration parsed byteLength = ⌊(byteLength : ℚ) / 16 + 1 / 2⌋) := by
  refine ⟨?_, ?_, ?_⟩
  · intro fmt h
    rw [h]
    rfl
  · intro h
    rw [h]
    rfl
  · intro h
    rw [h]
    show jsMathRound ((byteLength : ℚ) * 8 / (128 * 1000) * 1000) = _
    unfold jsMathRound
    norm_num
    ring_nf

/-- Concrete instantiation of `calculateMp3Duration_spec`: successful parse of
a 2.5 s file gives 2500 ms regardless of size; a failed parse of a 16000-byte
buffer estimates 1000 ms. -/
theorem calculateMp3Duration_spec_witness :
    calculateMp3Duration (some (some (5 / 2))) 999999 = jsMathRound (5 / 2 * 1000)
    ∧ calculateMp3Duration none 16000 = ⌊(16000 : ℚ) / 16 + 1 / 2⌋ := by
  refine ⟨(calculateMp3Duration_spec (some (some (5 / 2))) 999999).1 _ rfl, ?_⟩
  exact (calculateMp3Duration_spec none 16000).2.2 rfl

/-- C5: in the multi-item document, each item shows at most
`max 3 (15 / item_count)` files (in source order, with the "more files"
marker exactly when files are omitted, by `filesSection`), at most the first
5 commits with the "more commits" marker exactly when commits are omitted,
and each shown per-file diff is truncated to its first 200 lines plus one
marker line. -/
theorem formatMultiplePRsForAI_spec (l : List PRDataWithNumber)
    (owner repo : String) (h2 : 2 ≤ l.length) :
    (formatMultiplePRsForAI l owner repo =
      multiPRHeader l owner repo ++
      String.intercalate "\n---\n\n"
        (l.map (fun pr => prSection pr (max 3 (15 / l.length)))))
    ∧ (∀ pr ∈ l, commitsSection pr =
        "### Commits\n" ++
        String.join ((pr.commits.take 5).map
          (fun commit => "- " ++ commit.sha ++ ": " ++ commit.message ++ "\n")) ++
        (if 5 < pr.commits.length then
          "- ... and " ++ toString (pr.commits.length - 5) ++ " more commits\n"
         else ""))
    ∧ (∀ pr ∈ l,
        (pr.files.take (max 3 (15 / l.length))).length =
          min (max 3 (15 / l.length)) pr.files.length
        ∧ (pr.files.take (max 3 (15 / l.length))).length ≤ max 3 (15 / l.length))
    ∧ (∀ p : String, 200 < (jsSplitNewline p).length →
        truncatePatchForMultiPR p 200 =
          String.intercalate "\n" ((jsSplitNewline p).take 200 ++
            ["... (" ++ toString ((jsSplitNewline p).length - 200) ++
              " more lines truncated)"]))
    ∧ (∀ p : String, (jsSplitNewline p).length ≤ 200 →
        truncatePatchForMultiPR p 200 = p) := by
  refine ⟨rfl, ?_, ?_, ?_, ?_⟩
  · intro pr _
    unfold commitsSection
    rcases Nat.le_total pr.commits.length 5 with h | h
    · rw [Nat.min_eq_right h, List.take_length, List.take_of_length_le h,
        if_neg (by omega), if_neg (by omega)]
    · rw [Nat.min_eq_left h]
  · intro pr _
    refine ⟨List.length_take _ _, ?_⟩
    rw [List.length_take]
    exact Nat.min_le_left _ _
  · intro p h
    unfold truncatePatchForMultiPR
    exact truncation_shape (jsSplitNewline p) p 200 h (by omega)
  · intro p h
    unfold truncatePatchForMultiPR
    rw [if_pos h]

/-- Concrete instantiation of `formatMultiplePRsForAI_spec` on a two-item
list: the document is the header plus the two separated sections with file
budget `max 3 (15/2) = 7`, the first item's commit section keeps both
commits without a marker, and a short diff passes through untruncated. -/
theorem formatMultiplePRsForAI_spec_witness :
    2 ≤ ([samplePRW1, samplePRW2] : List PRDataWithNumber).length
    ∧ formatMultiplePRsForAI [samplePRW1, samplePRW2] "o" "r" =
        multiPRHeader [samplePRW1, samplePRW2] "o" "r" ++
        String.intercalate "\n---\n\n"
          ([samplePRW1, samplePRW2].map (fun pr => prSection pr
            (max 3 (15 / ([samplePRW1, samplePRW2] : List PRDataWithNumber).length))))
    ∧ commitsSection samplePRW1 =
        "### Commits\n" ++
        String.join ((samplePRW1.commits.take 5).map
          (fun commit => "- " ++ commit.sha ++ ": " ++ commit.message ++ "\n")) ++
        (if 5 < samplePRW1.commits.length then
          "- ... and " ++ toString (samplePRW1.commits.length - 5) ++ " more commits\n"
         else "")
    ∧ truncatePatchForMultiPR "a\nb" 200 = "a\nb" := by
  have h := formatMultiplePRsForAI_spec [samplePRW1, samplePRW2] "o" "r" (by decide)
  exact ⟨by decide, h.1,
    h.2.1 samplePRW1 (List.mem_cons_self _ _),
    h.2.2.2.2 "a\nb" (by decide)⟩

theorem parseAfterGithub_sound (l : List Char) (ref : PRRef)
    (h : parseAfterGithub l = some ref) :
    ∃ o r d post, l = o ++ ['/'] ++ r ++ pullLit ++ d ++ post ∧ PRRefPieces o r d := by
  unfold parseAfterGithub at h
  by_cases ho : (l.takeWhile (· != '/')).isEmpty = true
  · rw [if_pos ho] at h; simp at h
  · rw [if_neg ho] at h
    rcases hdw : l.dropWhile (· != '/') with _ | ⟨c, r2⟩ <;> rw [hdw] at h
    · simp at h
    · by_cases hc : c = '/'
      · subst hc
        simp only [if_pos rfl] at h
        by_cases hrE : (r2.takeWhile (· != '/')).isEmpty = true
        · rw [if_pos hrE] at h; simp at h
        · rw [if_neg hrE] at h
          by_cases hpp : pullLit.isPrefixOf (r2.dropWhile (· != '/')) = true
          · rw [if_pos hpp] at h
            by_cases hdE : (((r2.dropWhile (· != '/')).drop pullLit.length).takeWhile
                Char.isDigit).isEmpty = true
            · rw [if_pos hdE] at h; simp at h
            · obtain ⟨t, ht⟩ := List.isPrefixOf_iff_prefix.mp hpp
              refine ⟨l.takeWhile (· != '/'), r2.takeWhile (· != '/'),
                t.takeWhile Char.isDigit, t.dropWhile Char.isDigit, ?_, ?_⟩
              · have h1 : l = l.takeWhile (· != '/') ++ ('/' :: r2) := by
                  conv_lhs => rw [← List.takeWhile_append_dropWhile (· != '/') l]
                  rw [hdw]
                have h2 : r2 = r2.takeWhile (· != '/') ++ r2.dropWhile (· != '/') :=
                  (List.takeWhile_append_dropWhile _ _).symm
                have h3 : t = t.takeWhile Char.isDigit ++ t.dropWhile Char.isDigit :=
                  (List.takeWhile_append_dropWhile _ _).symm
                conv_lhs => rw [h1, h2, ← ht, h3]
                simp [List.append_assoc]
              · refine ⟨?_, ?_, ?_, ?_, ?_, ?_⟩
                · intro he; exact ho (by rw [he]; rfl)
                · intro hm
                  have := List.mem_takeWhile_imp hm
                  simp at this
                · intro he; exact hrE (by rw [he]; rfl)
                · intro hm
                  have := List.mem_takeWhile_imp hm
                  simp at this
                · intro he
                  apply hdE
                  have h4 : (r2.dropWhile (· != '/')).drop pullLit.length = t := by
                    rw [← ht]; exact List.drop_left _ _
                  rw [h4, he]; rfl
                · intro ch hm; exact List.mem_takeWhile_imp hm
          · rw [if_neg hpp] at h; simp at h
      · simp only [if_neg hc] at h; simp at h

theorem parseAfterGithub_complete (o r d post : List Char) (hp : PRRefPieces o r d) :
    (parseAfterGithub (o ++ ['/'] ++ r ++ pullLit ++ d ++ post)).isSome = true := by
  obtain ⟨ho, ho', hr, hr', hdne, hdig⟩ := hp
  have hallo : ∀ a ∈ o, (a != '/') = true := by
    intro a ha
    simp only [bne_iff_ne, ne_eq]
    exact fun he => ho' (he ▸ ha)
  have hallr : ∀ a ∈ r, (a != '/') = true := by
    intro a ha
    simp only [bne_iff_ne, ne_eq]
    exact fun he => hr' (he ▸ ha)
  have hshape : o ++ ['/'] ++ r ++ pullLit ++ d ++ post =
      o ++ '/' :: (r ++ (pullLit ++ (d ++ post))) := by
    simp [List.append_assoc]
  rw [hshape]
  unfold parseAfterGithub
  rw [List.takeWhile_append_of_pos hallo, List.takeWhile_cons_of_neg (by simp),
    List.append_nil, if_neg (by simpa using ho)]
  rw [List.dropWhile_append_of_pos hallo, List.dropWhile_cons_of_neg (by simp)]
  simp only [if_pos rfl, if_true]
  have h1 : List.takeWhile (fun x => x != '/') (r ++ (pullLit ++ (d ++ post))) = r := by
    rw [List.takeWhile_append_of_pos hallr,
      show pullLit ++ (d ++ post) = '/' :: ('p' :: 'u' :: 'l' :: 'l' :: '/' :: (d ++ post)) from rfl,
      List.takeWhile_cons_of_neg (by simp), List.append_nil]
  have h2 : List.dropWhile (fun x => x != '/') (r ++ (pullLit ++ (d ++ post))) =
      pullLit ++ (d ++ post) := by
    rw [List.dropWhile_append_of_pos hallr,
      show pullLit ++ (d ++ post) = '/' :: ('p' :: 'u' :: 'l' :: 'l' :: '/' :: (d ++ post)) from rfl,
      List.dropWhile_cons_of_neg (by simp)]
  rw [h1, h2, if_neg (by simp [hr]),
    if_pos (by simp : pullLit.isPrefixOf (pullLit ++ (d ++ post)) = true),
    List.drop_left, List.takeWhile_append_of_pos hdig,
    if_neg (by simp [hdne])]
  rfl

theorem hasPRRef_cons (c : Char) (rest : List Char) (h : hasPRRef rest) :
    hasPRRef (c :: rest) := by
  obtain ⟨pre, o, r, d, post, heq, hp⟩ := h
  exact ⟨c :: pre, o, r, d, post, by simp [heq], hp⟩

theorem findPRRef_complete : ∀ (pre o r d post : List Char), PRRefPieces o r d →
    (findPRRef (pre ++ githubLit ++ o ++ ['/'] ++ r ++ pullLit ++ d ++ post)).isSome = true := by
  intro pre
  induction pre with
  | nil =>
    intro o r d post hp
    have hshape : ([] : List Char) ++ githubLit ++ o ++ ['/'] ++ r ++ pullLit ++ d ++ post
        = githubLit ++ (o ++ ['/'] ++ r ++ pullLit ++ d ++ post) := by
      simp [List.append_assoc]
    rw [hshape]
    have hc : githubLit ++ (o ++ ['/'] ++ r ++ pullLit ++ d ++ post) =
        'g' :: ('i' :: 't' :: 'h' :: 'u' :: 'b' :: '.' :: 'c' :: 'o' :: 'm' :: '/' ::
          (o ++ ['/'] ++ r ++ pullLit ++ d ++ post)) := rfl
    rw [hc]
    simp only [findPRRef]
    rw [if_pos (show githubLit.isPrefixOf _ = true by rw [← hc]; simp)]
    have hdropeq : ('g' :: ('i' :: 't' :: 'h' :: 'u' :: 'b' :: '.' :: 'c' :: 'o' :: 'm' :: '/' ::
        (o ++ ['/'] ++ r ++ pullLit ++ d ++ post))).drop githubLit.length =
        o ++ ['/'] ++ r ++ pullLit ++ d ++ post := by
      rw [← hc]; exact List.drop_left _ _
    rw [hdropeq]
    have hsome := parseAfterGithub_complete o r d post hp
    cases hpa : parseAfterGithub (o ++ ['/'] ++ r ++ pullLit ++ d ++ post) with
    | some ref => rfl
    | none => rw [hpa] at hsome; simp at hsome
  | cons ch pre' ih =>
    intro o r d post hp
    have hshape : (ch :: pre') ++ githubLit ++ o ++ ['/'] ++ r ++ pullLit ++ d ++ post
        = ch :: (pre' ++ githubLit ++ o ++ ['/'] ++ r ++ pullLit ++ d ++ post) := by
      simp [List.append_assoc]
    rw [hshape]
    simp only [findPRRef]
    by_cases hgp : githubLit.isPrefixOf
        (ch :: (pre' ++ githubLit ++ o ++ ['/'] ++ r ++ pullLit ++ d ++ post)) = true
    · rw [if_pos hgp]
      cases hpa : parseAfterGithub ((ch :: (pre' ++ githubLit ++ o ++ ['/'] ++ r ++
          pullLit ++ d ++ post)).drop githubLit.length) with
      | some ref => rfl
      | none => exact ih o r d post hp
    · rw [if_neg hgp]
      exact ih o r d post hp

theorem findPRRef_sound : ∀ (l : List Char) (ref : PRRef),
    findPRRef l = some ref → hasPRRef l := by
  intro l
  induction l with
  | nil => intro ref h; simp [findPRRef] at h
  | cons c rest ih =>
    intro ref h
    simp only [findPRRef] at h
    by_cases hgp : githubLit.isPrefixOf (c :: rest) = true
    · rw [if_pos hgp] at h
      cases hpa : parseAfterGithub ((c :: rest).drop githubLit.length) with
      | some r0 =>
        obtain ⟨t, ht⟩ := List.isPrefixOf_iff_prefix.mp hgp
        have hdrop : (c :: rest).drop githubLit.length = t := by
          rw [← ht]; exact List.drop_left _ _
        rw [hdrop] at hpa
        obtain ⟨o, r, d, post, hteq, hp⟩ := parseAfterGithub_sound t r0 hpa
        exact ⟨[], o, r, d, post, by rw [← ht, hteq]; simp [List.append_assoc], hp⟩
      | none =>
        rw [hpa] at h
        exact hasPRRef_cons c rest (ih ref h)
    · rw [if_neg hgp] at h
      exact hasPRRef_cons c rest (ih ref h)

/-- C10: `parsePRUrl` is unanchored.  Parsing succeeds exactly when the input
contains "github.com/{owner}/{repo}/pull/{digits}" as a substring (scheme,
surrounding text and trailing path segments are irrelevant), and on the
concrete examples it returns the first embedded owner/repo/number. -/
theorem parsePRUrl_unanchored (url : String) :
    ((parsePRUrl url).isSome = true ↔ hasPRRef url.data)
    ∧ (parsePRUrl url = none ↔ ¬ hasPRRef url.data)
    ∧ parsePRUrl "See github.com/foo/bar/pull/12/files then github.com/baz/qux/pull/34" =
        some ⟨"foo", "bar", 12⟩
    ∧ parsePRUrl "intro https://github.com/o/r/pull/7 trailing" = some ⟨"o", "r", 7⟩ := by
  have hiff : (parsePRUrl url).isSome = true ↔ hasPRRef url.data := by
    constructor
    · intro h
      obtain ⟨ref, href⟩ := Option.isSome_iff_exists.mp h
      exact findPRRef_sound url.data ref href
    · intro h
      obtain ⟨pre, o, r, d, post, heq, hp⟩ := h
      show (findPRRef url.data).isSome = true
      rw [heq]
      exact findPRRef_complete pre o r d post hp
  refine ⟨hiff, ⟨?_, ?_⟩, by decide, by decide⟩
  · intro h hc
    have := hiff.mpr hc
    rw [h] at this
    simp at this
  · intro h
    cases hopt : parsePRUrl url with
    | none => rfl
    | some ref => exact absurd (hiff.mp (by rw [hopt]; rfl)) h

/-- Concrete instantiation of `parsePRUrl_unanchored`: a string with no
embedded reference parses to `none`, hence contains no reference substring. -/
theorem parsePRUrl_unanchored_witness :
    parsePRUrl "no reference here" = none ∧ ¬ hasPRRef ("no reference here" : String).data := by
  have h := (parsePRUrl_unanchored "no reference here").2.1
  have hnone : parsePRUrl "no reference here" = none := by decide
  exact ⟨hnone, h.mp hnone⟩

theorem parseAllPRUrls_length (prUrls : List String) (parsed : List ParsedPRInfo)
    (h : parseAllPRUrls prUrls = .ok parsed) : parsed.length = prUrls.length := by
  induction prUrls generalizing parsed with
  | nil =>
    simp only [parseAllPRUrls] at h
    cases h
    rfl
  | cons u rest ih =>
    simp only [parseAllPRUrls] at h
    cases hp : parsePRUrl u with
    | none => rw [hp] at h; simp at h
    | some prInfo =>
      rw [hp] at h
      cases hrec : parseAllPRUrls rest with
      | error e => rw [hrec] at h; simp at h
      | ok tail =>
        rw [hrec] at h
        simp only [Except.ok.injEq] at h
        rw [← h]
        simp [ih tail hrec]

theorem submitVideosPost_ok_case (userId shareId : String) (prUrls : List String)
    (first : ParsedPRInfo) (rest : List ParsedPRInfo)
    (h0 : ¬ prUrls.length = 0) (h10 : ¬ 10 < prUrls.length)
    (hparse : parseAllPRUrls prUrls = .ok (first :: rest)) :
    submitVideosPost userId prUrls shareId =
      (if (first :: rest).any (fun pr =>
          pr.owner != first.owner || pr.repo != first.repo) then
        .error .crossRepository
      else if ¬ ((first :: rest).map (fun pr => pr.number)).Nodup then
        .error .duplicate
      else
        .ok { user_id := userId, pr_url := first.url, pr_owner := first.owner,
              pr_repo := first.repo, pr_number := first.number,
              pr_count := (first :: rest).length, share_id := shareId,
              status := "pending" }) := by
  unfold submitVideosPost
  rw [if_neg h0, if_neg h10, hparse]

/-- C9: for every submitted batch that parses, a cross-repository pair is
rejected with the cross-repository error, duplicate reference numbers (within
one repository) are rejected with the duplicate error, and in either
situation the handler never reaches the row insert. -/
theorem submitVideos_validation (userId : String) (prUrls : List String)
    (shareId : String) (parsedPRs : List ParsedPRInfo)
    (hparse : parseAllPRUrls prUrls = .ok parsedPRs) :
    ((prUrls.length ≤ 10 ∧ ∃ pr ∈ parsedPRs, ∃ pr' ∈ parsedPRs,
        pr.owner ≠ pr'.owner ∨ pr.repo ≠ pr'.repo) →
      submitVideosPost userId prUrls shareId = .error .crossRepository)
    ∧ ((prUrls.length ≤ 10 ∧
        (∀ pr ∈ parsedPRs, ∀ pr' ∈ parsedPRs,
          pr.owner = pr'.owner ∧ pr.repo = pr'.repo) ∧
        ¬ (parsedPRs.map (fun pr => pr.number)).Nodup) →
      submitVideosPost userId prUrls shareId = .error .duplicate)
    ∧ (((∃ pr ∈ parsedPRs, ∃ pr' ∈ parsedPRs,
          pr.owner ≠ pr'.owner ∨ pr.repo ≠ pr'.repo) ∨
        ¬ (parsedPRs.map (fun pr => pr.number)).Nodup) →
      ∀ row, submitVideosPost userId prUrls shareId ≠ .ok row) := by
  have hlen := parseAllPRUrls_length prUrls parsedPRs hparse
  have hc1 : (prUrls.length ≤ 10 ∧ ∃ pr ∈ parsedPRs, ∃ pr' ∈ parsedPRs,
      pr.owner ≠ pr'.owner ∨ pr.repo ≠ pr'.repo) →
      submitVideosPost userId prUrls shareId = .error .crossRepository := by
    rintro ⟨h10, pr, hpr, pr', hpr', hdiff⟩
    have hne : parsedPRs ≠ [] := by
      intro he
      rw [he] at hpr
      exact List.not_mem_nil pr hpr
    obtain ⟨first, rest, hfr⟩ := List.exists_cons_of_ne_nil hne
    subst hfr
    have h0 : ¬ prUrls.length = 0 := by
      rw [← hlen]; simp
    rw [submitVideosPost_ok_case userId shareId prUrls first rest h0
      (by omega) hparse]
    have hany : ((first :: rest).any (fun x =>
        x.owner != first.owner || x.repo != first.repo)) = true := by
      rw [List.any_eq_true]
      by_cases hof : pr.owner = first.owner ∧ pr.repo = first.repo
      · refine ⟨pr', hpr', ?_⟩
        simp only [Bool.or_eq_true, bne_iff_ne, ne_eq]
        rcases hdiff with hd | hd
        · exact Or.inl (fun he => hd (by rw [hof.1]; exact he.symm))
        · exact Or.inr (fun he => hd (by rw [hof.2]; exact he.symm))
      · refine ⟨pr, hpr, ?_⟩
        simp only [Bool.or_eq_true, bne_iff_ne, ne_eq]
        exact not_and_or.mp hof
    rw [if_pos hany]
  have hc2 : (prUrls.length ≤ 10 ∧
      (∀ pr ∈ parsedPRs, ∀ pr' ∈ parsedPRs,
        pr.owner = pr'.owner ∧ pr.repo = pr'.repo) ∧
      ¬ (parsedPRs.map (fun pr => pr.number)).Nodup) →
      submitVideosPost userId prUrls shareId = .error .duplicate := by
    rintro ⟨h10, hsame, hdup⟩
    have hne : parsedPRs ≠ [] := by
      intro he
      rw [he] at hdup
      exact hdup (by simp)
    obtain ⟨first, rest, hfr⟩ := List.exists_cons_of_ne_nil hne
    subst hfr
    have h0 : ¬ prUrls.length = 0 := by
      rw [← hlen]; simp
    rw [submitVideosPost_ok_case userId shareId prUrls first rest h0
      (by omega) hparse]
    have hany : ((first :: rest).any (fun x =>
        x.owner != first.owner || x.repo != first.repo)) = false := by
      rw [List.any_eq_false]
      intro x hx
      have hsa := hsame x hx first (List.mem_cons_self _ _)
      simp [hsa.1, hsa.2]
    rw [hany]
    rw [if_neg (by simp), if_pos hdup]
  refine ⟨hc1, hc2, ?_⟩
  intro hbad row hok
  by_cases h0 : prUrls.length = 0
  · unfold submitVideosPost at hok
    rw [if_pos h0] at hok
    simp at hok
  · by_cases h10 : 10 < prUrls.length
    · unfold submitVideosPost at hok
      rw [if_neg h0, if_pos h10] at hok
      simp at hok
    · rcases hbad with hpair | hdup
      · rw [hc1 ⟨by omega, hpair⟩] at hok
        simp at hok
      · have hne : parsedPRs ≠ [] := by
          intro he
          rw [he] at hdup
          exact hdup (by simp)
        obtain ⟨first, rest, hfr⟩ := List.exists_cons_of_ne_nil hne
        subst hfr
        rw [submitVideosPost_ok_case userId shareId prUrls first rest h0
          h10 hparse] at hok
        by_cases hany : ((first :: rest).any (fun x =>
            x.owner != first.owner || x.repo != first.repo)) = true
        · rw [if_pos hany] at hok
          simp at hok
        · rw [if_neg hany, if_pos hdup] at hok
          simp at hok

/-- Concrete instantiation of `submitVideos_validation`: two references to
repositories a/r and b/r are rejected with the cross-repository error. -/
theorem submitVideos_validation_witness :
    parseAllPRUrls crossRepoUrls = .ok crossRepoParsed
    ∧ crossRepoUrls.length ≤ 10
    ∧ submitVideosPost "user" crossRepoUrls "share" = .error .crossRepository := by
  have hparse : parseAllPRUrls crossRepoUrls = .ok crossRepoParsed := by rfl
  refine ⟨hparse, by decide, ?_⟩
  exact (submitVideos_validation "user" crossRepoUrls "share" crossRepoParsed hparse).1
    ⟨by decide,
     { owner := "a", repo := "r", number := 1, url := "https://github.com/a/r/pull/1" },
     by decide,
     { owner := "b", repo := "r", number := 1, url := "https://github.com/b/r/pull/1" },
     by decide, Or.inl (by decide)⟩

theorem acc_push_facts (acc : List ScreenshotRec) (s : ScreenshotRec)
    (hval : ∀ x ∈ acc, isValidScreenshotUrl x.url = true)
    (hord : ∀ k x, acc.get? k = some x → x.display_order = k)
    (hs : isValidScreenshotUrl s.url = true) (hdo : s.display_order = acc.length) :
    (∀ x ∈ acc ++ [s], isValidScreenshotUrl x.url = true)
    ∧ (∀ k x, (acc ++ [s]).get? k = some x → x.display_order = k) := by
  constructor
  · intro x hx
    rcases List.mem_append.mp hx with h | h
    · exact hval x h
    · rw [List.mem_singleton.mp h]
      exact hs
  · intro k x hk
    rcases Nat.lt_trichotomy k acc.length with h | h | h
    · rw [List.get?_append h] at hk
      exact hord k x hk
    · subst h
      rw [List.get?_concat_length] at hk
      cases hk
      exact hdo
    · rw [List.get?_len_le (by simp; omega)] at hk
      cases hk

theorem addImages_facts (comment : PRComment) (images : List ImageRef) :
    ∀ (acc : List ScreenshotRec),
      (∀ s ∈ acc, isValidScreenshotUrl s.url = true) →
      (∀ k s, acc.get? k = some s → s.display_order = k) →
      acc.length ≤ 5 →
      (∀ s ∈ (addImagesFromComment comment images acc).1,
          isValidScreenshotUrl s.url = true)
      ∧ (∀ k s, (addImagesFromComment comment images acc).1.get? k = some s →
          s.display_order = k)
      ∧ ((addImagesFromComment comment images acc).2 = true →
          (addImagesFromComment comment images acc).1.length ≤ 6)
      ∧ ((addImagesFromComment comment images acc).2 = false →
          (addImagesFromComment comment images acc).1.length ≤ 5) := by
  induction images with
  | nil =>
    intro acc hval hord hlen
    simp only [addImagesFromComment]
    exact ⟨hval, hord, fun h => by simp at h, fun _ => hlen⟩
  | cons image images ih =>
    intro acc hval hord hlen
    simp only [addImagesFromComment]
    by_cases hv : isValidScreenshotUrl image.url = true
    · rw [if_pos hv]
      have hpush := acc_push_facts acc
        { url := image.url, alt_text := image.alt,
          source := identifyScreenshotSource comment.user.login image.url,
          comment_id := comment.id, comment_author := some comment.user.login,
          display_order := acc.length } hval hord hv rfl
      split
      · rename_i hcap
        refine ⟨hpush.1, hpush.2, fun _ => ?_, fun hf => ?_⟩
        · simp
          omega
        · simp at hf
      · rename_i hcap
        refine ih _ hpush.1 hpush.2 ?_
        simp only [MAX_SCREENSHOTS, List.length_append, List.length_cons,
          List.length_nil] at hcap ⊢
        omega
    · rw [if_neg hv]
      exact ih acc hval hord hlen

theorem parseGo_facts : ∀ (comments : List PRComment) (acc : List ScreenshotRec),
    (∀ s ∈ acc, isValidScreenshotUrl s.url = true) →
    (∀ k s, acc.get? k = some s → s.display_order = k) →
    acc.length ≤ 5 →
    (∀ s ∈ parseScreenshotsGo comments acc, isValidScreenshotUrl s.url = true)
    ∧ (∀ k s, (parseScreenshotsGo comments acc).get? k = some s →
        s.display_order = k)
    ∧ (parseScreenshotsGo comments acc).length ≤ 6 := by
  intro comments
  induction comments with
  | nil =>
    intro acc hval hord hlen
    simp only [parseScreenshotsGo]
    exact ⟨hval, hord, by omega⟩
  | cons comment comments ih =>
    intro acc hval hord hlen
    simp only [parseScreenshotsGo]
    have hadd := addImages_facts comment (extractImagesFromMarkdown comment.body)
      acc hval hord hlen
    cases hres : addImagesFromComment comment (extractImagesFromMarkdown comment.body) acc with
    | mk acc2 flag =>
      rw [hres] at hadd
      cases flag with
      | true => exact ⟨hadd.1, hadd.2.1, hadd.2.2.1 rfl⟩
      | false => exact ih acc2 hadd.1 hadd.2.1 (hadd.2.2.2 rfl)

set_option maxRecDepth 8000 in
/-- C6: screenshot extraction accepts a URL only if it passes the validity
filter, collects at most 6 screenshots, and assigns `display_order` by
first-seen position; on the example comment the githubusercontent image is
kept and the shields.io badge rejected. -/
theorem parseScreenshots_spec :
    (∀ comments : List PRComment,
      (∀ s ∈ parseScreenshotsFromComments comments, isValidScreenshotUrl s.url = true)
      ∧ (parseScreenshotsFromComments comments).length ≤ 6
      ∧ (∀ k s, (parseScreenshotsFromComments comments).get? k = some s →
          s.display_order = k))
    ∧ parseScreenshotsFromComments [exampleComment] = [expectedShot]
    ∧ isValidScreenshotUrl "https://user-images.githubusercontent.com/1/shot.png" = true
    ∧ isValidScreenshotUrl "https://shields.io/badge.svg" = false := by
  refine ⟨?_, by decide, by decide, by decide⟩
  intro comments
  have h := parseGo_facts comments [] (by simp)
    (fun k s hk => by simp at hk) (by simp)
  exact ⟨h.1, h.2.2, h.2.1⟩

set_option maxRecDepth 8000 in
/-- Concrete instantiation of `parseScreenshots_spec` on the example
comment: at most 6 screenshots, the kept record's URL passes the filter, and
its display order is its position. -/
theorem parseScreenshots_spec_witness :
    (parseScreenshotsFromComments [exampleComment]).length ≤ 6
    ∧ isValidScreenshotUrl expectedShot.url = true
    ∧ expectedShot.display_order = 0 := by
  have h := parseScreenshots_spec
  refine ⟨(h.1 [exampleComment]).2.1, ?_, ?_⟩
  · exact (h.1 [exampleComment]).1 expectedShot
      (by rw [h.2.1]; exact List.mem_singleton.mpr rfl)
  · exact (h.1 [exampleComment]).2.2 0 expectedShot (by rw [h.2.1]; rfl)
